import Mathlib

/-!
Verification development for the `k0sti/nostr-location` repository.

The two core subsystems are modelled here as shallow embeddings:
* the IP geolocation engine (`internal/geolocator`, file `part_001`):
  range table, loading/parsing, and the binary-search lookup;
* the relay discovery crawler (`internal/crawler`, file `part_000`):
  frontier/visited state, batch rounds, probe classification,
  endpoint extraction and URL normalization.

Go machine integers are modelled as `Nat` (all the relevant values are
non-negative and bounds-checked where they matter); Go `float64` values
(latitude/longitude) are not interpreted: the parsed field keeps its
source text and float-parse success is abstracted by a boolean oracle
passed to the loaders, since no property here depends on the numeric
value of a coordinate.
-/

namespace NostrLocation

/-! ## Geolocator data model (part_001, lines 20-39) -/

/-- `IPRange` (part_001 lines 20-27).  `Start`/`End` are `uint32` range
bounds; `Lat`/`Lon` are `float64` in the source and are represented by
their (trimmed) source text, see the file header. -/
structure IPRange where
  Start : Nat
  End : Nat
  Lat : String
  Lon : String
  City : String
  Country : String
deriving DecidableEq

/-- `models.GeoLocation` (relays/pkg/models/relay.go), field order Latitude,
Longitude, Country, City; coordinates kept as source text. -/
structure GeoLocation where
  Latitude : String
  Longitude : String
  Country : String
  City : String
deriving DecidableEq

/-- `GeoLocator` (part_001 lines 29-33); the mutex is a synchronization
artifact with no data content and is not part of the state. -/
structure GeoLocator where
  ranges : List IPRange
  loaded : Bool
deriving DecidableEq

/-- `NewGeoLocator` (part_001 lines 35-39). -/
def NewGeoLocator : GeoLocator := { ranges := [], loaded := false }

/-! ## Binary-search lookup (part_001 lines 158-184) -/

/-- The `GeoLocation` built from a matching range (part_001 lines 174-179). -/
def geoOf (r : IPRange) : GeoLocation :=
  { Latitude := r.Lat, Longitude := r.Lon, Country := r.Country, City := r.City }

/-- The binary-search loop of `GeoLocator.lookupIP` (part_001 lines 164-181).
`left`/`right` are Go `int`s (so `right` can reach `-1`).  The Go loop
terminates because the interval shrinks at every iteration; that is made
explicit by the `fuel` argument, and `GeoLocator.lookupIP` below supplies
`ranges.length + 1` fuel, which is enough for every run (the correctness
theorem tracks the interval size against the fuel).  `mid` is computed as
`(left + right) / 2`; whenever the loop body runs we have
`0 ≤ left ≤ right`, so Go's `int` division agrees with the `Nat` division
used here. -/
def lookupLoop (rs : List IPRange) (ipNum : Nat) : Nat → Int → Int → Option GeoLocation
  | 0, _, _ => none
  | fuel + 1, left, right =>
    if left ≤ right then
      let mid : Nat := (left + right).toNat / 2
      match rs[mid]? with
      | none => none
      | some r =>
        if ipNum < r.Start then
          lookupLoop rs ipNum fuel left ((mid : Int) - 1)
        else if ipNum > r.End then
          lookupLoop rs ipNum fuel ((mid : Int) + 1) right
        else
          some (geoOf r)
    else
      none

/-- `GeoLocator.lookupIP` (part_001 lines 158-184), for an already-numeric
IPv4 address (`ipToUint32` applied to a resolved address in the source). -/
def GeoLocator.lookupIP (g : GeoLocator) (ipNum : Nat) : Option GeoLocation :=
  lookupLoop g.ranges ipNum (g.ranges.length + 1) 0 ((g.ranges.length : Int) - 1)

/-- An address is inside the inclusive interval `[Start, End]` of a range. -/
def rangeContains (r : IPRange) (ipNum : Nat) : Prop :=
  r.Start ≤ ipNum ∧ ipNum ≤ r.End

instance (r : IPRange) (ipNum : Nat) : Decidable (rangeContains r ipNum) := by
  unfold rangeContains
  exact inferInstance

/-- A range table is well formed when it is sorted ascending by `Start` and
its ranges are pairwise non-overlapping: each earlier range lies entirely
below the start of each later range. -/
def WellFormedTable (rs : List IPRange) : Prop :=
  List.Pairwise (fun a b => a.Start ≤ b.Start ∧ a.End < b.Start) rs

instance (rs : List IPRange) : Decidable (WellFormedTable rs) := by
  unfold WellFormedTable
  exact inferInstance

/-- Index form of `WellFormedTable`, phrased through `getElem?`. -/
theorem wellFormedTable_get {rs : List IPRange} (h : WellFormedTable rs)
    {i j : Nat} {ri rj : IPRange} (hij : i < j)
    (hi : rs[i]? = some ri) (hj : rs[j]? = some rj) :
    ri.Start ≤ rj.Start ∧ ri.End < rj.Start := by
  obtain ⟨hil, hie⟩ := List.getElem?_eq_some_iff.mp hi
  obtain ⟨hjl, hje⟩ := List.getElem?_eq_some_iff.mp hj
  have hp := (List.pairwise_iff_getElem.mp h) i j hil hjl hij
  rw [hie, hje] at hp
  exact hp

/-- Soundness of the search loop: a returned location comes from a range of
the table that contains the address. -/
theorem lookupLoop_sound {rs : List IPRange} {ipNum : Nat} :
    ∀ (fuel : Nat) (left right : Int) (loc : GeoLocation),
      lookupLoop rs ipNum fuel left right = some loc →
      ∃ (i : Nat) (r : IPRange), rs[i]? = some r ∧ rangeContains r ipNum ∧ loc = geoOf r := by
  intro fuel
  induction fuel with
  | zero => intro left right loc h; simp [lookupLoop] at h
  | succ n ih =>
    intro left right loc h
    rw [lookupLoop] at h
    split at h
    · simp only [] at h
      split at h
      · simp at h
      · rename_i r hget
        split at h
        · exact ih _ _ _ h
        · split at h
          · exact ih _ _ _ h
          · refine ⟨(left + right).toNat / 2, r, hget, ?_, ?_⟩
            · constructor <;> omega
            · exact (Option.some_inj.mp h).symm
    · simp at h

/-- Completeness of the search loop: if some range in the window
`[left, right]` contains the address and the table is well formed, the loop
returns the location of that range (given enough fuel). -/
theorem lookupLoop_complete {rs : List IPRange} {ipNum : Nat}
    (hWF : WellFormedTable rs) :
    ∀ (fuel : Nat) (left right : Int) (i : Nat) (r : IPRange),
      rs[i]? = some r →
      rangeContains r ipNum →
      0 ≤ left → left ≤ (i : Int) → (i : Int) ≤ right →
      right < (rs.length : Int) →
      (right + 1 - left).toNat < fuel →
      lookupLoop rs ipNum fuel left right = some (geoOf r) := by
  intro fuel
  induction fuel with
  | zero => intro left right i r _ _ _ _ _ _ hfuel; omega
  | succ n ih =>
    intro left right i r hir hcont h0 hli hiright hrlen hfuel
    have hilen : i < rs.length := (List.getElem?_eq_some_iff.mp hir).1
    have hlr : left ≤ right := le_trans hli hiright
    rw [lookupLoop]
    rw [if_pos hlr]
    simp only []
    have hmid_ge : left ≤ (((left + right).toNat / 2 : Nat) : Int) := by omega
    have hmid_le : (((left + right).toNat / 2 : Nat) : Int) ≤ right := by omega
    have hmlt : (left + right).toNat / 2 < rs.length := by omega
    obtain ⟨rm, hgm⟩ : ∃ rm, rs[(left + right).toNat / 2]? = some rm :=
      ⟨_, List.getElem?_eq_getElem hmlt⟩
    rw [hgm]
    simp only []
    by_cases hlt : ipNum < rm.Start
    · rw [if_pos hlt]
      -- the containing index is strictly left of mid
      have himid : i < (left + right).toNat / 2 := by
        rcases Nat.lt_trichotomy i ((left + right).toNat / 2) with h | h | h
        · exact h
        · exfalso
          rw [h, hgm] at hir
          have := Option.some_inj.mp hir
          subst this
          exact absurd hcont.1 (by omega)
        · exfalso
          have := (wellFormedTable_get hWF h hgm hir).1
          exact absurd hcont.1 (by omega)
      exact ih _ _ i r hir hcont h0 hli (by omega) (by omega) (by omega)
    · rw [if_neg hlt]
      by_cases hgt : ipNum > rm.End
      · rw [if_pos hgt]
        have himid : (left + right).toNat / 2 < i := by
          rcases Nat.lt_trichotomy i ((left + right).toNat / 2) with h | h | h
          · exfalso
            have := (wellFormedTable_get hWF h hir hgm).2
            exact absurd hcont.2 (by omega)
          · exfalso
            rw [h, hgm] at hir
            have := Option.some_inj.mp hir
            subst this
            exact absurd hcont.2 (by omega)
          · exact h
        exact ih _ _ i r hir hcont (by omega) (by omega) hiright hrlen (by omega)
      · rw [if_neg hgt]
        have hieq : i = (left + right).toNat / 2 := by
          rcases Nat.lt_trichotomy i ((left + right).toNat / 2) with h | h | h
          · exfalso
            have := (wellFormedTable_get hWF h hir hgm).2
            exact absurd hcont.2 (by omega)
          · exact h
          · exfalso
            have := (wellFormedTable_get hWF h hgm hir).2
            exact absurd hcont.1 (by omega)
        rw [hieq, hgm] at hir
        have := Option.some_inj.mp hir
        subst this
        rfl

/-- C1: for every range table sorted ascending by `Start` with pairwise
non-overlapping ranges and every 32-bit IPv4 address, `lookupIP` returns the
location of the (unique) range whose `[Start, End]` interval contains the
address, and returns `none` (NotFound) when no range contains it. -/
theorem c1_lookupIP_binary_search_correct (g : GeoLocator) (ipNum : Nat)
    (hWF : WellFormedTable g.ranges) (_hip : ipNum < 2 ^ 32) :
    (∀ (i : Nat) (r : IPRange), g.ranges[i]? = some r → rangeContains r ipNum →
        g.lookupIP ipNum = some (geoOf r))
    ∧ ((∀ r ∈ g.ranges, ¬ rangeContains r ipNum) → g.lookupIP ipNum = none)
    ∧ (∀ (i j : Nat) (ri rj : IPRange), g.ranges[i]? = some ri →
        g.ranges[j]? = some rj → rangeContains ri ipNum → rangeContains rj ipNum →
        i = j) := by
  refine ⟨?_, ?_, ?_⟩
  · intro i r hir hcont
    have hilen : i < g.ranges.length := (List.getElem?_eq_some_iff.mp hir).1
    exact lookupLoop_complete hWF _ _ _ i r hir hcont (by omega) (by omega)
      (by omega) (by omega) (by omega)
  · intro hnone
    cases h : g.lookupIP ipNum with
    | none => rfl
    | some loc =>
      exfalso
      obtain ⟨i, r, hir, hcont, _⟩ := lookupLoop_sound _ _ _ _ h
      obtain ⟨hlen, heq⟩ := List.getElem?_eq_some_iff.mp hir
      exact hnone r (heq ▸ List.getElem_mem hlen) hcont
  · intro i j ri rj hi hj hci hcj
    rcases Nat.lt_trichotomy i j with h | h | h
    · exfalso
      have := (wellFormedTable_get hWF h hi hj).2
      have := hci.2
      have := hcj.1
      omega
    · exact h
    · exfalso
      have := (wellFormedTable_get hWF h hj hi).2
      have := hcj.2
      have := hci.1
      omega

/-- The concrete two-range table of the claim: `[(0,99),(100,199)]`. -/
def c1Table : List IPRange :=
  [ { Start := 0, End := 99, Lat := "1.0", Lon := "2.0", City := "CityA", Country := "AA" },
    { Start := 100, End := 199, Lat := "3.0", Lon := "4.0", City := "CityB", Country := "BB" } ]

/-- A locator loaded with `c1Table`. -/
def c1Locator : GeoLocator := { ranges := c1Table, loaded := true }

/-- C1 witness: on the table `[(0,99),(100,199)]`, lookup of 50 matches the
first range, 150 matches the second, and 250 is NotFound. -/
theorem c1_lookupIP_binary_search_correct_witness :
    c1Locator.lookupIP 50 = some (geoOf (c1Table.get ⟨0, by decide⟩))
    ∧ c1Locator.lookupIP 150 = some (geoOf (c1Table.get ⟨1, by decide⟩))
    ∧ c1Locator.lookupIP 250 = none := by
  refine ⟨?_, ?_, ?_⟩
  · exact (c1_lookupIP_binary_search_correct c1Locator 50 (by decide) (by decide)).1
      0 _ (by decide) (by decide)
  · exact (c1_lookupIP_binary_search_correct c1Locator 150 (by decide) (by decide)).1
      1 _ (by decide) (by decide)
  · exact (c1_lookupIP_binary_search_correct c1Locator 250 (by decide) (by decide)).2.1
      (by decide)

/-! ## Dataset parsing and loading (part_001, lines 41-127 and 216-297)

Both loaders read delimited records from a stream.  A stream element is
`none` when `reader.Read` fails with a non-EOF error (the row is skipped,
part_001 lines 75-77 / 245-247), and `some record` for a decoded record.
Acquisition of the stream (HTTP fetch / gzip setup / file open) is modelled
by explicit outcome types, since the network and filesystem are outside the
program. -/

/-- Go's `strconv.ParseUint(s, 10, 32)`: succeeds exactly on a non-empty
all-digit string whose value fits in 32 bits (no sign, no underscores in
base 10). -/
def parseUint32 (s : String) : Option Nat :=
  if s.isEmpty then none
  else if s.data.all Char.isDigit then
    let v := s.data.foldl (fun n c => n * 10 + (c.toNat - 48)) 0
    if v < 2 ^ 32 then some v else none
  else none

/-- Insert a range into a list sorted ascending by `Start`. -/
def insertRange (r : IPRange) : List IPRange → List IPRange
  | [] => [r]
  | s :: rest => if r.Start < s.Start then r :: s :: rest else s :: insertRange r rest

/-- Model of `sort.Slice(g.ranges, func(i, j) { Start_i < Start_j })`
(part_001 lines 121-123 and 291-293).  `sort.Slice` is an unstable sort:
it guarantees only a permutation ordered by the comparator, which this
insertion sort delivers; no property below depends on the order of ranges
with equal `Start`. -/
def sortRangesByStart (l : List IPRange) : List IPRange :=
  l.foldr insertRange []

/-- One record of the `LoadDatabase` parse loop (part_001 lines 79-118):
`none` when the row is skipped (too few fields, unparseable numeric bounds,
missing or unparseable lat/lon).  `pf` abstracts `strconv.ParseFloat`
success (floats are not modelled; the stored value is the trimmed text). -/
def parseRecordDB (pf : String → Bool) (record : List String) : Option IPRange :=
  if record.length < 9 then none
  else
    match parseUint32 ((record.getD 0 "").trim), parseUint32 ((record.getD 1 "").trim) with
    | some start, some stop =>
      let latStr := (record.getD 7 "").trim
      let lonStr := (record.getD 8 "").trim
      if latStr = "" ∨ lonStr = "" then none
      else if pf latStr ∧ pf lonStr then
        let country := if record.length > 4 then (record.getD 4 "").trim else ""
        let city := if record.length > 5 then (record.getD 5 "").trim else ""
        some { Start := start, End := stop, Lat := latStr, Lon := lonStr,
               City := city, Country := country }
      else none
    | _, _ => none

/-- The `LoadDatabase` read loop (part_001 lines 70-119): skipped rows
contribute nothing, parsed rows are appended in order. -/
def parseRowsDB (pf : String → Bool) (rows : List (Option (List String))) : List IPRange :=
  rows.foldl
    (fun acc row =>
      match row with
      | none => acc
      | some record =>
        match parseRecordDB pf record with
        | none => acc
        | some r => acc ++ [r])
    []

/-- One record of the `LoadFromFile` parse loop (part_001 lines 249-288);
textually the same logic as `parseRecordDB`, translated separately because
the source duplicates it. -/
def parseRecordFile (pf : String → Bool) (record : List String) : Option IPRange :=
  if record.length < 9 then none
  else
    match parseUint32 ((record.getD 0 "").trim), parseUint32 ((record.getD 1 "").trim) with
    | some start, some stop =>
      let latStr := (record.getD 7 "").trim
      let lonStr := (record.getD 8 "").trim
      if latStr = "" ∨ lonStr = "" then none
      else if pf latStr ∧ pf lonStr then
        let country := if record.length > 4 then (record.getD 4 "").trim else ""
        let city := if record.length > 5 then (record.getD 5 "").trim else ""
        some { Start := start, End := stop, Lat := latStr, Lon := lonStr,
               City := city, Country := country }
      else none
    | _, _ => none

/-- The `LoadFromFile` read loop (part_001 lines 240-289). -/
def parseRowsFile (pf : String → Bool) (rows : List (Option (List String))) : List IPRange :=
  rows.foldl
    (fun acc row =>
      match row with
      | none => acc
      | some record =>
        match parseRecordFile pf record with
        | none => acc
        | some r => acc ++ [r])
    []

/-- Outcome of decompressing the fetched body: `gzip.NewReader` failure, or
the record stream the CSV reader yields. -/
inductive GzipBody where
  | corrupt
  | rows (rs : List (Option (List String)))

/-- Outcome of `http.Get` for the bulk dataset. -/
inductive FetchOutcome where
  | getErr
  | resp (status : Nat) (body : GzipBody)

/-- `GeoLocator.LoadDatabase` (part_001 lines 41-127).  Error strings
abbreviate the formatted errors of the source. -/
def GeoLocator.LoadDatabase (g : GeoLocator) (pf : String → Bool)
    (fetch : FetchOutcome) : GeoLocator × Option String :=
  if g.loaded then (g, none)
  else
    match fetch with
    | .getErr => (g, some "failed to download database")
    | .resp status body =>
      if status ≠ 200 then (g, some "failed to download database: bad status")
      else
        match body with
        | .corrupt => (g, some "failed to create gzip reader")
        | .rows rows =>
          ({ ranges := sortRangesByStart (g.ranges ++ parseRowsDB pf rows),
             loaded := true }, none)

/-- A dataset-acquisition failure: fetch error, non-OK status, or
decompression setup failure. -/
def acqFailure : FetchOutcome → Bool
  | .getErr => true
  | .resp status body =>
    decide (status ≠ 200) ||
      match body with
      | .corrupt => true
      | .rows _ => false

/-- Outcome of opening/decompressing the local file for `LoadFromFile`. -/
inductive FileOutcome where
  | openErr
  | gzCorrupt
  | rows (rs : List (Option (List String)))

/-- `GeoLocator.LoadFromFile` (part_001 lines 216-297).  The `.gz`-suffix
dispatch is abstracted into the outcome (`gzCorrupt` is only reachable for
compressed files). -/
def GeoLocator.LoadFromFile (g : GeoLocator) (pf : String → Bool)
    (file : FileOutcome) : GeoLocator × Option String :=
  match file with
  | .openErr => (g, some "failed to open file")
  | .gzCorrupt => (g, some "failed to create gzip reader")
  | .rows rows =>
    ({ ranges := sortRangesByStart (g.ranges ++ parseRowsFile pf rows),
       loaded := true }, none)

/-- Inserting into a list yields a permutation of consing. -/
theorem insertRange_perm (r : IPRange) (l : List IPRange) :
    (insertRange r l).Perm (r :: l) := by
  induction l with
  | nil => simp [insertRange]
  | cons s rest ih =>
    rw [insertRange]
    split
    · exact List.Perm.refl _
    · exact (List.Perm.cons s ih).trans (List.Perm.swap r s rest)

/-- The sort produces a permutation of its input. -/
theorem sortRangesByStart_perm (l : List IPRange) :
    (sortRangesByStart l).Perm l := by
  induction l with
  | nil => simp [sortRangesByStart]
  | cons r rest ih =>
    have hstep : sortRangesByStart (r :: rest) = insertRange r (sortRangesByStart rest) := rfl
    rw [hstep]
    exact (insertRange_perm r _).trans (List.Perm.cons r ih)

/-- Insertion preserves sortedness by `Start`. -/
theorem insertRange_sorted (r : IPRange) (l : List IPRange)
    (h : List.Sorted (fun a b => a.Start ≤ b.Start) l) :
    List.Sorted (fun a b => a.Start ≤ b.Start) (insertRange r l) := by
  induction l with
  | nil => simp [insertRange]
  | cons s rest ih =>
    rw [insertRange]
    rw [List.sorted_cons] at h
    split
    · rename_i hlt
      rw [List.sorted_cons]
      constructor
      · intro b hb
        rcases List.mem_cons.mp hb with hb | hb
        · subst hb; omega
        · have := h.1 b hb; omega
      · rw [List.sorted_cons]; exact h
    · rename_i hge
      rw [List.sorted_cons]
      constructor
      · intro b hb
        have hb' := (insertRange_perm r rest).mem_iff.mp hb
        rcases List.mem_cons.mp hb' with hb' | hb'
        · subst hb'; omega
        · exact h.1 b hb'
      · exact ih h.2

/-- The sort output is sorted ascending by `Start`. -/
theorem sortRangesByStart_sorted (l : List IPRange) :
    List.Sorted (fun a b => a.Start ≤ b.Start) (sortRangesByStart l) := by
  induction l with
  | nil => simp [sortRangesByStart]
  | cons r rest ih => exact insertRange_sorted r _ ih

/-- The two duplicated record parsers are the same function. -/
theorem parseRecordDB_eq_parseRecordFile : parseRecordDB = parseRecordFile := rfl

/-- The two duplicated parse loops are the same function. -/
theorem parseRowsDB_eq_parseRowsFile : parseRowsDB = parseRowsFile := rfl

/-- C7: dataset-acquisition failures (fetch error, non-OK status,
decompression setup failure) make `LoadDatabase` return an error with the
locator unchanged (no partial table, not marked loaded), and `LoadDatabase`
on an already-loaded locator returns immediately with no error and no
change. -/
theorem c7_loadDatabase_failure_leaves_state (g : GeoLocator) (pf : String → Bool)
    (fetch : FetchOutcome) :
    (g.loaded = true → g.LoadDatabase pf fetch = (g, none))
    ∧ (g.loaded = false → acqFailure fetch = true →
        (g.LoadDatabase pf fetch).1 = g ∧ ((g.LoadDatabase pf fetch).2).isSome = true) := by
  constructor
  · intro h
    unfold GeoLocator.LoadDatabase
    rw [h]
    rfl
  · intro h hf
    unfold GeoLocator.LoadDatabase
    rw [h]
    simp only [Bool.false_eq_true, if_false]
    cases fetch with
    | getErr => exact ⟨rfl, rfl⟩
    | resp status body =>
      by_cases hs : status = 200
      · subst hs
        cases body with
        | corrupt => simp
        | rows rows => simp [acqFailure] at hf
      · simp [hs]

/-- C7 witness: a fresh locator with a fetch failure keeps its (empty)
table and an already-loaded locator is returned unchanged. -/
theorem c7_loadDatabase_failure_leaves_state_witness :
    ((GeoLocator.mk [] true).LoadDatabase (fun _ => true) .getErr
        = ((GeoLocator.mk [] true), none))
    ∧ ((NewGeoLocator.LoadDatabase (fun _ => true) .getErr).1 = NewGeoLocator
        ∧ ((NewGeoLocator.LoadDatabase (fun _ => true) .getErr).2).isSome = true) := by
  constructor
  · exact (c7_loadDatabase_failure_leaves_state (GeoLocator.mk [] true)
      (fun _ => true) .getErr).1 rfl
  · exact (c7_loadDatabase_failure_leaves_state NewGeoLocator
      (fun _ => true) .getErr).2 rfl rfl

/-- C8: from an empty locator, the compressed-remote loader and the local
file loader produce the identical sorted range table on the same record
stream, hence identical lookup results for every address. -/
theorem c8_loadDatabase_loadFromFile_equivalent (pf : String → Bool)
    (rows : List (Option (List String))) :
    (NewGeoLocator.LoadDatabase pf (.resp 200 (.rows rows))).1.ranges
      = (NewGeoLocator.LoadFromFile pf (.rows rows)).1.ranges
    ∧ ∀ ipNum : Nat,
        (NewGeoLocator.LoadDatabase pf (.resp 200 (.rows rows))).1.lookupIP ipNum
          = (NewGeoLocator.LoadFromFile pf (.rows rows)).1.lookupIP ipNum := by
  have hrows : parseRowsDB pf rows = parseRowsFile pf rows := by
    rw [parseRowsDB_eq_parseRowsFile]
  have hranges : (NewGeoLocator.LoadDatabase pf (.resp 200 (.rows rows))).1.ranges
      = (NewGeoLocator.LoadFromFile pf (.rows rows)).1.ranges := by
    unfold GeoLocator.LoadDatabase GeoLocator.LoadFromFile NewGeoLocator
    simp [hrows]
  refine ⟨hranges, ?_⟩
  intro ipNum
  unfold GeoLocator.lookupIP
  rw [hranges]

/-- C10: `LoadFromFile` never returns early: for every locator (loaded or
not) it appends all parsed records to the existing table — duplicating any
previously loaded ranges — re-sorts by `Start`, and marks the locator
loaded. -/
theorem c10_loadFromFile_appends_unconditionally (g : GeoLocator)
    (pf : String → Bool) (rows : List (Option (List String))) :
    (g.LoadFromFile pf (.rows rows)).1.loaded = true
    ∧ (g.LoadFromFile pf (.rows rows)).2 = none
    ∧ (g.LoadFromFile pf (.rows rows)).1.ranges.length
        = g.ranges.length + (parseRowsFile pf rows).length
    ∧ (∀ r : IPRange, (g.LoadFromFile pf (.rows rows)).1.ranges.count r
        = g.ranges.count r + (parseRowsFile pf rows).count r)
    ∧ List.Sorted (fun a b => a.Start ≤ b.Start)
        (g.LoadFromFile pf (.rows rows)).1.ranges := by
  refine ⟨rfl, rfl, ?_, ?_, ?_⟩
  · have := (sortRangesByStart_perm (g.ranges ++ parseRowsFile pf rows)).length_eq
    simpa [GeoLocator.LoadFromFile] using this
  · intro r
    have := (sortRangesByStart_perm (g.ranges ++ parseRowsFile pf rows)).count_eq r
    simpa [GeoLocator.LoadFromFile, List.count_append] using this
  · exact sortRangesByStart_sorted _

/-! ## Endpoint normalization (part_000, lines 262-313)

`normalizeRelayURL` delegates to Go's `net/url.Parse` and `URL.String`.
Those library functions are modelled below for the inputs the normalizer
produces: after the prefix step every parsed string begins with `ws://` or
`wss://`, so scheme extraction is specialized to those two schemes.  The
model follows Go `net/url` (url.go): control bytes are rejected, the
fragment is cut first, then the query, then the authority up to the first
slash; host characters are checked against the `encodeHost` escape set,
with the host percent-escape rule (`%25` or a first hex digit ≥ 8);
percent-escapes are kept undecoded, which is observationally equivalent
here because re-serialization escapes them back and the host validators
reject any percent sign either way. -/

/-- ASCII hex digit test (Go `ishex`). -/
def isHexDigitChar (c : Char) : Bool :=
  c.isDigit || ('a' ≤ c && c ≤ 'f') || ('A' ≤ c && c ≤ 'F')

/-- Hex digit value (Go `unhex`). -/
def hexVal (c : Char) : Nat :=
  if c.isDigit then c.toNat - 48
  else if 'a' ≤ c && c ≤ 'f' then c.toNat - 87
  else if 'A' ≤ c && c ≤ 'F' then c.toNat - 55
  else 0

/-- Every percent sign is followed by two hex digits (Go `unescape` without
mode-specific checks, as used for path, fragment and userinfo). -/
def validPercentEscapes : List Char → Bool
  | [] => true
  | '%' :: c1 :: c2 :: rest =>
    isHexDigitChar c1 && isHexDigitChar c2 && validPercentEscapes rest
  | '%' :: _ => false
  | _ :: rest => validPercentEscapes rest

/-- Characters Go leaves unescaped in a host (`shouldEscape(c, encodeHost)`
returns false): alphanumerics, the unreserved marks, the sub-delims and
`: [ ] < > "`. -/
def hostCharAllowed (c : Char) : Bool :=
  c.isAlphanum || c = '-' || c = '_' || c = '.' || c = '~' ||
  c = '!' || c = '$' || c = '&' || c = '\'' || c = '(' || c = ')' ||
  c = '*' || c = '+' || c = ',' || c = ';' || c = '=' || c = ':' ||
  c = '[' || c = ']' || c = '<' || c = '>' || c = '"'

/-- Host character scan of Go `unescape(host, encodeHost)`: unescaped
characters must be in the allowed set; a percent-escape needs two hex
digits and must be `%25` or have first hex digit ≥ 8. -/
def validHostChars : List Char → Bool
  | [] => true
  | '%' :: c1 :: c2 :: rest =>
    isHexDigitChar c1 && isHexDigitChar c2 &&
      (8 ≤ hexVal c1 || (c1 = '2' && c2 = '5')) && validHostChars rest
  | '%' :: _ => false
  | c :: rest => hostCharAllowed c && validHostChars rest

/-- Go `parseHost` for non-bracketed hosts: an optional `:port` suffix
(after the last colon) must be all digits, and every character must pass
the host scan.  Bracketed (IPv6) hosts are not produced by the inputs
considered here and are mapped to a parse failure. -/
def parseHost (host : List Char) : Option (List Char) :=
  if host.head? = some '[' then none
  else if host.contains ':' then
    let port := (host.reverse.takeWhile (fun c => c ≠ ':')).reverse
    if port.all Char.isDigit then
      if validHostChars host then some host else none
    else none
  else if validHostChars host then some host else none

/-- Characters Go `validUserinfo` accepts. -/
def userinfoCharAllowed (c : Char) : Bool :=
  c.isAlphanum || c = '-' || c = '.' || c = '_' || c = ':' || c = '~' ||
  c = '!' || c = '$' || c = '&' || c = '\'' || c = '(' || c = ')' ||
  c = '*' || c = '+' || c = ',' || c = ';' || c = '=' || c = '%' || c = '@'

/-- Go userinfo validation (`validUserinfo` plus escape-pair validity). -/
def validUserinfo (l : List Char) : Bool :=
  l.all userinfoCharAllowed && validPercentEscapes l

/-- Go `parseAuthority`: split at the last `@` into userinfo and host. -/
def parseAuthority (auth : List Char) : Option (Option (List Char) × List Char) :=
  if auth.contains '@' then
    let user := ((auth.reverse.dropWhile (fun c => c ≠ '@')).reverse).dropLast
    let hostPart := (auth.reverse.takeWhile (fun c => c ≠ '@')).reverse
    if validUserinfo user then
      match parseHost hostPart with
      | some h => some (some user, h)
      | none => none
    else none
  else
    match parseHost auth with
    | some h => some (none, h)
    | none => none

/-- The components Go `url.Parse` produces that `normalizeRelayURL`
consumes.  Strings are kept in their raw (undecoded) form, see the section
header. -/
structure GoURL where
  scheme : String
  user : Option (List Char)
  host : List Char
  path : List Char
  forceQuery : Bool
  rawQuery : List Char
  fragment : List Char
deriving DecidableEq

/-- The characters of `"ws://"`. -/
def wsSlashes : List Char := ['w', 's', ':', '/', '/']

/-- The characters of `"wss://"`. -/
def wssSlashes : List Char := ['w', 's', 's', ':', '/', '/']

/-- Go `net/url.Parse` for strings beginning with `ws://` or `wss://`
(every string `normalizeRelayURL` parses has that shape).  Follows url.go:
reject control bytes, cut the fragment at the first `#`, extract the
scheme, handle the trailing-`?` force-query case or cut the query at the
first `?`, then split the authority from the path at the first slash. -/
def urlParse (s : List Char) : Option GoURL :=
  if s.any (fun c => c.toNat < 32 || c.toNat = 127) then none
  else
    let beforeFrag := s.takeWhile (fun c => c ≠ '#')
    let frag := (s.dropWhile (fun c => c ≠ '#')).drop 1
    if validPercentEscapes frag then
      match
        (if List.isPrefixOf ['w', 's', 's', ':'] beforeFrag then
          some ("wss", beforeFrag.drop 4)
        else if List.isPrefixOf ['w', 's', ':'] beforeFrag then
          some ("ws", beforeFrag.drop 3)
        else none) with
      | none => none
      | some (scheme, rest0) =>
        let hasForceQuery :=
          rest0.getLast? = some '?' ∧ ¬ rest0.dropLast.contains '?'
        let rest1 := if hasForceQuery then rest0.dropLast
          else rest0.takeWhile (fun c => c ≠ '?')
        let rawQuery := if hasForceQuery then []
          else (rest0.dropWhile (fun c => c ≠ '?')).drop 1
        if List.isPrefixOf ['/', '/'] rest1 then
          let afterSlashes := rest1.drop 2
          let auth := afterSlashes.takeWhile (fun c => c ≠ '/')
          let path := afterSlashes.dropWhile (fun c => c ≠ '/')
          if validPercentEscapes path then
            match parseAuthority auth with
            | none => none
            | some (user, host) =>
              some { scheme := scheme, user := user, host := host, path := path,
                     forceQuery := decide hasForceQuery, rawQuery := rawQuery,
                     fragment := frag }
          else none
        else none
    else none

/-- Go `URL.String()` for the URLs produced by `urlParse` (non-opaque,
scheme always present): `scheme:` then `//` with userinfo and host when an
authority or path is present, the path, `?query` when forced or non-empty,
`#fragment` when non-empty. -/
def urlString (u : GoURL) : String :=
  let authorityPart : List Char :=
    if u.host ≠ [] ∨ u.path ≠ [] ∨ u.user.isSome then
      ['/', '/'] ++ (match u.user with | some ui => ui ++ ['@'] | none => []) ++ u.host
    else []
  let slashFix : List Char :=
    if u.path ≠ [] ∧ u.path.head? ≠ some '/' ∧ u.host ≠ [] then ['/'] else []
  let queryPart : List Char :=
    if u.forceQuery = true ∨ u.rawQuery ≠ [] then '?' :: u.rawQuery else []
  let fragPart : List Char := if u.fragment ≠ [] then '#' :: u.fragment else []
  u.scheme ++ ":" ++
    String.mk (authorityPart ++ slashFix ++ u.path ++ queryPart ++ fragPart)

/-- Split a character list at every occurrence of `sep`. -/
def splitOnChar (sep : Char) : List Char → List (List Char)
  | [] => [[]]
  | c :: rest =>
    let r := splitOnChar sep rest
    if c = sep then [] :: r
    else
      match r with
      | [] => [[c]]
      | h :: t => (c :: h) :: t

/-- One label of the domain regexp of `isValidDomain` (part_000 line 302):
`[a-zA-Z0-9]([a-zA-Z0-9-]{0,61}[a-zA-Z0-9])?` — 1 to 63 characters,
alphanumeric at both ends, alphanumeric or hyphen inside. -/
def validDomainLabel (l : List Char) : Bool :=
  decide (l ≠ []) && decide (l.length ≤ 63) &&
    (l.head?.elim false Char.isAlphanum) && (l.getLast?.elim false Char.isAlphanum) &&
    l.all (fun c => c.isAlphanum || c = '-')

/-- `isValidDomain` (part_000 lines 297-304): strip everything from the
first colon, then match `^label(\.label)*$`. -/
def isValidDomain (host : List Char) : Bool :=
  let h := if host.contains ':' then host.takeWhile (fun c => c ≠ ':') else host
  (splitOnChar '.' h).all validDomainLabel

/-- `isValidIP` (part_000 lines 306-313): strip everything from the first
colon, then match `^(?:[0-9]{1,3}\.){3}[0-9]{1,3}$` — exactly four groups
of one to three digits. -/
def isValidIP (host : List Char) : Bool :=
  let h := if host.contains ':' then host.takeWhile (fun c => c ≠ ':') else host
  match splitOnChar '.' h with
  | [a, b, c, d] =>
    [a, b, c, d].all (fun p => decide (p ≠ []) && decide (p.length ≤ 3) && p.all Char.isDigit)
  | _ => false

/-- Go `strings.TrimSpace`. -/
def trimSpace (l : List Char) : List Char :=
  ((l.dropWhile Char.isWhitespace).reverse.dropWhile Char.isWhitespace).reverse

/-- Go `strings.Contains`: `sub` occurs as a contiguous run of `hay`. -/
def containsSub (sub : List Char) : List Char → Bool
  | [] => List.isPrefixOf sub []
  | c :: rest => List.isPrefixOf sub (c :: rest) || containsSub sub rest

/-- The characters of `"localhost"`. -/
def localhostChars : List Char := ['l', 'o', 'c', 'a', 'l', 'h', 'o', 's', 't']

/-- The characters of `"127.0.0.1"`. -/
def loopbackChars : List Char := ['1', '2', '7', '.', '0', '.', '0', '.', '1']

/-- The scheme-prefixing step of `normalizeRelayURL` (part_000 lines
269-275): when the trimmed string lacks a websocket prefix, prepend `ws://`
if it mentions `localhost` or `127.0.0.1` and `wss://` otherwise. -/
def withScheme (raw : List Char) : List Char :=
  if ¬ List.isPrefixOf wsSlashes raw ∧ ¬ List.isPrefixOf wssSlashes raw then
    if containsSub localhostChars raw ∨ containsSub loopbackChars raw then
      wsSlashes ++ raw
    else wssSlashes ++ raw
  else raw

/-- `normalizeRelayURL` (part_000 lines 262-295): trim, prefix `ws://` for
loopback-looking hosts or `wss://` otherwise when no websocket prefix is
present, parse, then reject unless the scheme is `ws`/`wss`, the host is
non-empty, and the host is a valid domain or IPv4; on success return the
re-serialized URL.  The empty string is the rejection value. -/
def normalizeRelayURL (rawURL : String) : String :=
  if rawURL = "" then ""
  else
    match urlParse (withScheme (trimSpace rawURL.data)) with
    | none => ""
    | some u =>
      if u.scheme ≠ "ws" ∧ u.scheme ≠ "wss" then ""
      else if u.host = [] then ""
      else if isValidDomain u.host ∨ isValidIP u.host then urlString u
      else ""

/-- C6 (amended): an endpoint accepted by `normalizeRelayURL` always parses
with scheme `ws` or `wss`, a non-empty host, and a host passing the domain
or IPv4 validator — equivalently, the normalizer rejects every input whose
parsed scheme is foreign, whose host is empty, or whose host is invalid.
The claim's example is wrong, though: an explicit non-websocket scheme
prefix is not rejected (see the counterexample theorem). -/
theorem c6_normalize_accepts_only_valid_ws_urls (rawURL : String)
    (h : normalizeRelayURL rawURL ≠ "") :
    ∃ u : GoURL,
      urlParse (withScheme (trimSpace rawURL.data)) = some u
      ∧ (u.scheme = "ws" ∨ u.scheme = "wss")
      ∧ u.host ≠ []
      ∧ (isValidDomain u.host = true ∨ isValidIP u.host = true)
      ∧ normalizeRelayURL rawURL = urlString u := by
  by_cases h0 : rawURL = ""
  · exfalso
    apply h
    rw [normalizeRelayURL, if_pos h0]
  · rw [normalizeRelayURL, if_neg h0] at h ⊢
    cases hp : urlParse (withScheme (trimSpace rawURL.data)) with
    | none => rw [hp] at h; simp at h
    | some u =>
      rw [hp] at h
      simp only [] at h ⊢
      refine ⟨u, rfl, ?_⟩
      by_cases hs : u.scheme ≠ "ws" ∧ u.scheme ≠ "wss"
      · rw [if_pos hs] at h; simp at h
      · rw [if_neg hs] at h ⊢
        by_cases hh : u.host = []
        · rw [if_pos hh] at h; simp at h
        · rw [if_neg hh] at h ⊢
          by_cases hv : isValidDomain u.host ∨ isValidIP u.host
          · rw [if_pos hv] at h ⊢
            refine ⟨?_, hh, ?_, rfl⟩
            · by_cases hws : u.scheme = "ws"
              · exact Or.inl hws
              · right
                by_contra hwss
                exact hs ⟨hws, hwss⟩
            · rcases hv with hv | hv
              · exact Or.inl hv
              · exact Or.inr hv
          · rw [if_neg hv] at h; simp at h

/-- C6 witness: `"example.com"` is accepted, so the existence statement is
inhabited at a concrete input. -/
theorem c6_normalize_accepts_only_valid_ws_urls_witness :
    ∃ u : GoURL,
      urlParse (withScheme (trimSpace ("example.com" : String).data)) = some u
      ∧ (u.scheme = "ws" ∨ u.scheme = "wss")
      ∧ u.host ≠ []
      ∧ (isValidDomain u.host = true ∨ isValidIP u.host = true)
      ∧ normalizeRelayURL "example.com" = urlString u :=
  c6_normalize_accepts_only_valid_ws_urls "example.com" (by decide)

/-- C6 counterexample: the input `"http://example.com"`, which carries an
explicit non-websocket scheme prefix, is not rejected: the normalizer
wraps it as `wss://http://example.com` (whose parsed host `http:` passes
the domain validator) instead of returning the rejection value. -/
theorem c6_counterexample_http_prefix_not_rejected :
    normalizeRelayURL "http://example.com" = "wss://http://example.com"
    ∧ normalizeRelayURL "http://example.com" ≠ "" := by
  constructor
  · decide
  · decide

/-! ## Crawler state and round loop (part_000) -/

/-- `models.NostrEvent` (relays/pkg/models/relay.go).  Only `Tags` is
inspected by the crawler; `kind`/`createdAt` are Go `int`/`int64`. -/
structure NostrEvent where
  id : String
  pubkey : String
  kind : Int
  Tags : List (List String)
  content : String
  sig : String
  createdAt : Int
deriving DecidableEq

/-- The crawler's frontier/visited state (part_000 lines 17-25).  The Go
map `visitedRelays` is modelled by its key list (only membership is used);
`enqueueLog` is a ghost field recording every string ever appended to
`relayQueue`, in order — it is mutated exactly when `relayQueue` is
appended to, and exists to state the lifetime no-re-enqueue invariant. -/
structure CrawlerState where
  visitedRelays : List String
  relayQueue : List String
  enqueueLog : List String
deriving DecidableEq

/-- The state `NewCrawler` creates (part_000 lines 27-38). -/
def initialCrawlerState : CrawlerState :=
  { visitedRelays := [], relayQueue := [], enqueueLog := [] }

/-- The guarded enqueue that both `AddSeedRelay` (lines 44-47) and the
loop body of `addNewRelays` (lines 245-250) perform: append to the queue
and mark visited iff not already in the visited set. -/
def enqueueIfNew (st : CrawlerState) (relayURL : String) : CrawlerState :=
  if st.visitedRelays.contains relayURL then st
  else
    { visitedRelays := st.visitedRelays ++ [relayURL],
      relayQueue := st.relayQueue ++ [relayURL],
      enqueueLog := st.enqueueLog ++ [relayURL] }

/-- `Crawler.AddSeedRelay` (part_000 lines 40-48). -/
def AddSeedRelay (st : CrawlerState) (relayURL : String) : CrawlerState :=
  enqueueIfNew st relayURL

/-- `Crawler.addNewRelays` (part_000 lines 241-251). -/
def addNewRelays (st : CrawlerState) (newRelays : List String) : CrawlerState :=
  newRelays.foldl enqueueIfNew st

/-- `Crawler.getBatch` (part_000 lines 82-96): drain up to `batchSize`
endpoints from the front of the queue. -/
def getBatch (batchSize : Nat) (st : CrawlerState) : List String × CrawlerState :=
  let bs := if st.relayQueue.length < batchSize then st.relayQueue.length else batchSize
  (st.relayQueue.take bs, { st with relayQueue := st.relayQueue.drop bs })

/-- The insertion-ordered key list of the `relaySet` map that
`extractRelaysFromEvents` builds (part_000 lines 212-231): scan every tag
of every event in order; an `"r"` tag contributes its second element and a
`"p"` tag with at least three elements contributes its third, both through
`normalizeRelayURL`, dropping rejected URLs and duplicates. -/
def relaySetKeys (events : List NostrEvent) : List String :=
  events.foldl
    (fun acc e =>
      e.Tags.foldl
        (fun acc2 tag =>
          if 2 ≤ tag.length then
            if tag.getD 0 "" = "r" then
              let u := normalizeRelayURL (tag.getD 1 "")
              if u = "" then acc2 else if acc2.contains u then acc2 else acc2 ++ [u]
            else if tag.getD 0 "" = "p" then
              if 3 ≤ tag.length then
                let u := normalizeRelayURL (tag.getD 2 "")
                if u = "" then acc2 else if acc2.contains u then acc2 else acc2 ++ [u]
              else acc2
            else acc2
          else acc2)
        acc)
    []

/-- `Crawler.extractRelaysFromEvents` (part_000 lines 211-239).  The final
`for relay := range relaySet` loop iterates a Go map, whose order is
unspecified and varies between executions: `sched` models one execution's
iteration order, and the theorems constrain it to enumerate exactly the
key set (`ValidSched`). -/
def extractRelaysFromEvents (sched : List String → List String)
    (events : List NostrEvent) : List String :=
  sched (relaySetKeys events)

/-- A map-iteration schedule is valid when it enumerates exactly the keys
of the map, i.e. produces a permutation of the key list. -/
def ValidSched (sched : List String → List String) : Prop :=
  ∀ l : List String, (sched l).Perm l

/-- The part of a `RelayTestResult` (part_000 lines 98-103) that the round
loop consumes: the alive flag and the collected events.  The URL field is
carried separately (it is always the probed endpoint) and the error detail
does not influence the round loop. -/
structure ProbeOut where
  IsAlive : Bool
  Events : List NostrEvent
deriving DecidableEq

/-- The per-round result processing of `DiscoverRelays` (part_000 lines
64-72): results are visited in original batch order; each alive result's
URL joins the functioning list and its extracted relays are enqueued.
(The stats increments on these lines are modelled in the lock-trace
section below.) -/
def processRoundResults (sched : List String → List String)
    (results : List (String × ProbeOut)) (acc : List String)
    (st : CrawlerState) : List String × CrawlerState :=
  results.foldl
    (fun p r =>
      if r.2.IsAlive then
        (p.1 ++ [r.1], addNewRelays p.2 (extractRelaysFromEvents sched r.2.Events))
      else p)
    (acc, st)

/-- The round loop of `DiscoverRelays` (part_000 lines 50-80), with the
probe fan-out abstracted by the oracle `probeFn` (the outcome `testRelay`
would produce for each endpoint; `processBatch`, lines 105-119, fills
`results[i]` from `batch[i]`, so results follow batch order).  `fuel` is
the remaining depth budget `maxDepth - depth`.  Returns the functioning
relays, the final state, and — as a ghost observer — the list of drained
batches, one per executed round. -/
def discoverAux (sched : List String → List String) (probeFn : String → ProbeOut)
    (batchSize : Nat) :
    Nat → List String → CrawlerState → List String × CrawlerState × List (List String)
  | 0, acc, st => (acc, st, [])
  | fuel + 1, acc, st =>
    if st.relayQueue.length = 0 then (acc, st, [])
    else
      let bs := getBatch batchSize st
      if bs.1.length = 0 then (acc, bs.2, [])
      else
        let results := bs.1.map (fun u => (u, probeFn u))
        let p := processRoundResults sched results acc bs.2
        let rec1 := discoverAux sched probeFn batchSize fuel p.1 p.2
        (rec1.1, rec1.2.1, bs.1 :: rec1.2.2)

/-- `Crawler.DiscoverRelays` (part_000 lines 50-80): run the round loop
with the full depth budget from an empty accumulator (the returned Go
error is always nil and is omitted). -/
def DiscoverRelays (sched : List String → List String) (probeFn : String → ProbeOut)
    (maxDepth batchSize : Nat) (st : CrawlerState) :
    List String × CrawlerState × List (List String) :=
  discoverAux sched probeFn batchSize maxDepth [] st

/-! ## C3: frontier/visited lifetime invariant -/

/-- The frontier-mutating operations a crawl performs on the shared state:
seed insertion, batch draining, and post-round enqueue. -/
inductive CrawlOp where
  | addSeed (relayURL : String)
  | drainBatch
  | addNew (relayURLs : List String)

/-- Apply one frontier operation. -/
def stepOp (batchSize : Nat) (st : CrawlerState) : CrawlOp → CrawlerState
  | .addSeed u => AddSeedRelay st u
  | .drainBatch => (getBatch batchSize st).2
  | .addNew us => addNewRelays st us

/-- Run a sequence of frontier operations. -/
def runOps (batchSize : Nat) (ops : List CrawlOp) (st : CrawlerState) : CrawlerState :=
  ops.foldl (stepOp batchSize) st

/-- The crawl-lifetime invariant: every queued endpoint is visited, the
enqueue log has no duplicates (no endpoint is ever enqueued twice), and
the visited set is exactly the set of endpoints ever enqueued. -/
def CrawlerInv (st : CrawlerState) : Prop :=
  (∀ u ∈ st.relayQueue, u ∈ st.visitedRelays)
  ∧ st.enqueueLog.Nodup
  ∧ (∀ u : String, u ∈ st.visitedRelays ↔ u ∈ st.enqueueLog)

theorem enqueueIfNew_inv {st : CrawlerState} (h : CrawlerInv st) (u : String) :
    CrawlerInv (enqueueIfNew st u) := by
  obtain ⟨hq, hn, hv⟩ := h
  unfold enqueueIfNew
  by_cases hc : st.visitedRelays.contains u
  · rw [if_pos hc]; exact ⟨hq, hn, hv⟩
  · rw [if_neg hc]
    have hu : u ∉ st.visitedRelays := by
      intro hmem
      exact hc (List.elem_eq_true_of_mem hmem)
    refine ⟨?_, ?_, ?_⟩
    · intro x hx
      rcases List.mem_append.mp hx with hx | hx
      · exact List.mem_append.mpr (Or.inl (hq x hx))
      · exact List.mem_append.mpr (Or.inr hx)
    · rw [List.nodup_append]
      refine ⟨hn, List.nodup_singleton u, ?_⟩
      intro x hx hx'
      rw [List.mem_singleton] at hx'
      subst hx'
      exact hu ((hv x).mpr hx)
    · intro x
      rw [List.mem_append, List.mem_append, hv x]

theorem addNewRelays_inv {st : CrawlerState} (h : CrawlerInv st) (us : List String) :
    CrawlerInv (addNewRelays st us) := by
  induction us generalizing st with
  | nil => exact h
  | cons u rest ih => exact ih (enqueueIfNew_inv h u)

theorem getBatch_inv {st : CrawlerState} (h : CrawlerInv st) (batchSize : Nat) :
    CrawlerInv (getBatch batchSize st).2 := by
  obtain ⟨hq, hn, hv⟩ := h
  refine ⟨?_, hn, hv⟩
  intro u hu
  exact hq u (List.mem_of_mem_drop hu)

theorem stepOp_inv {st : CrawlerState} (h : CrawlerInv st) (batchSize : Nat)
    (op : CrawlOp) : CrawlerInv (stepOp batchSize st op) := by
  cases op with
  | addSeed u => exact enqueueIfNew_inv h u
  | drainBatch => exact getBatch_inv h batchSize
  | addNew us => exact addNewRelays_inv h us

theorem runOps_inv {st : CrawlerState} (h : CrawlerInv st) (batchSize : Nat)
    (ops : List CrawlOp) : CrawlerInv (runOps batchSize ops st) := by
  induction ops generalizing st with
  | nil => exact h
  | cons op rest ih => exact ih (stepOp_inv h batchSize op)

theorem initialCrawlerState_inv : CrawlerInv initialCrawlerState := by
  refine ⟨?_, ?_, ?_⟩ <;> simp [initialCrawlerState, CrawlerInv]

/-- C3: after any sequence of seed insertions, batch drains and post-round
enqueues from the initial state, every endpoint in the frontier queue is in
the visited set and no endpoint was ever enqueued more than once (the
enqueue log is duplicate-free); and seeding the same endpoint twice leaves
the frontier containing it exactly once. -/
theorem c3_frontier_visited_invariant (batchSize : Nat) (ops : List CrawlOp)
    (e : String) :
    CrawlerInv (runOps batchSize ops initialCrawlerState)
    ∧ (runOps batchSize [.addSeed e, .addSeed e]
        initialCrawlerState).relayQueue.count e = 1 := by
  constructor
  · exact runOps_inv initialCrawlerState_inv batchSize ops
  · show (AddSeedRelay (AddSeedRelay initialCrawlerState e) e).relayQueue.count e = 1
    unfold AddSeedRelay enqueueIfNew initialCrawlerState
    simp

/-! ## C4: breadth-first round structure -/

theorem discoverAux_rounds_le (sched : List String → List String)
    (probeFn : String → ProbeOut) (batchSize : Nat) :
    ∀ (fuel : Nat) (acc : List String) (st : CrawlerState),
      (discoverAux sched probeFn batchSize fuel acc st).2.2.length ≤ fuel := by
  intro fuel
  induction fuel with
  | zero => intro acc st; simp [discoverAux]
  | succ n ih =>
    intro acc st
    rw [discoverAux]
    split
    · simp
    · simp only []
      split
      · simp
      · simp only [List.length_cons]
        exact Nat.succ_le_succ (ih _ _)

theorem discoverAux_empty_frontier (sched : List String → List String)
    (probeFn : String → ProbeOut) (batchSize fuel : Nat) (acc : List String)
    (st : CrawlerState) (h : st.relayQueue = []) :
    (discoverAux sched probeFn batchSize fuel acc st).2.2 = [] := by
  cases fuel with
  | zero => rfl
  | succ n =>
    rw [discoverAux]
    rw [if_pos (by rw [h]; rfl)]

theorem discoverAux_first_round_drains_min (sched : List String → List String)
    (probeFn : String → ProbeOut) (batchSize : Nat) (d : Nat) (acc : List String)
    (st : CrawlerState) (hne : st.relayQueue ≠ []) (hbs : 0 < batchSize) :
    (discoverAux sched probeFn batchSize (d + 1) acc st).2.2.head?
      = some (st.relayQueue.take (min batchSize st.relayQueue.length)) := by
  have hlen : st.relayQueue.length ≠ 0 := by
    intro h
    exact hne (List.eq_nil_of_length_eq_zero h)
  rw [discoverAux]
  rw [if_neg hlen]
  have hbatch : (getBatch batchSize st).1 = st.relayQueue.take (min batchSize st.relayQueue.length) := by
    unfold getBatch
    simp only []
    congr 1
    rw [Nat.min_def]
    by_cases h : st.relayQueue.length < batchSize
    · rw [if_pos h, if_neg (by omega)]
    · rw [if_neg h, if_pos (by omega)]
  have hbatchlen : (getBatch batchSize st).1.length ≠ 0 := by
    rw [hbatch]
    simp only [List.length_take]
    omega
  rw [if_neg hbatchlen]
  simp only [List.head?_cons]
  rw [hbatch]

/-- The twelve pre-seeded endpoints of the claim's concrete scenario. -/
def seeds12 : List String :=
  ["wss://r01.example", "wss://r02.example", "wss://r03.example",
   "wss://r04.example", "wss://r05.example", "wss://r06.example",
   "wss://r07.example", "wss://r08.example", "wss://r09.example",
   "wss://r10.example", "wss://r11.example", "wss://r12.example"]

/-- The crawler state after seeding the twelve endpoints. -/
def seeded12 : CrawlerState := seeds12.foldl AddSeedRelay initialCrawlerState

/-- A probe oracle with no further discovery: every endpoint is alive and
returns no events. -/
def probeNoDiscovery : String → ProbeOut := fun _ => { IsAlive := true, Events := [] }

/-- C4: each round drains exactly `min(batchSize, frontier length)`
endpoints from the front of the frontier; the loop runs at most `maxDepth`
rounds and stops immediately on an empty frontier.  Concretely, with
`batchSize = 5`, twelve pre-seeded endpoints and no further discovery,
`Discover` executes exactly three rounds of sizes 5, 5, 2 (even with depth
budget 10), and with `maxDepth = 1` only the seed batch is drained. -/
theorem c4_discover_batch_rounds :
    (∀ (sched : List String → List String) (probeFn : String → ProbeOut)
        (batchSize fuel : Nat) (acc : List String) (st : CrawlerState),
      (discoverAux sched probeFn batchSize fuel acc st).2.2.length ≤ fuel
      ∧ (st.relayQueue = [] →
          (discoverAux sched probeFn batchSize fuel acc st).2.2 = [])
      ∧ (∀ d : Nat, fuel = d + 1 → st.relayQueue ≠ [] → 0 < batchSize →
          (discoverAux sched probeFn batchSize fuel acc st).2.2.head?
            = some (st.relayQueue.take (min batchSize st.relayQueue.length))))
    ∧ (DiscoverRelays id probeNoDiscovery 10 5 seeded12).2.2.map List.length = [5, 5, 2]
    ∧ (DiscoverRelays id probeNoDiscovery 1 5 seeded12).2.2
        = [seeded12.relayQueue.take 5] := by
  refine ⟨?_, ?_, ?_⟩
  · intro sched probeFn batchSize fuel acc st
    refine ⟨discoverAux_rounds_le sched probeFn batchSize fuel acc st, ?_, ?_⟩
    · intro h
      exact discoverAux_empty_frontier sched probeFn batchSize fuel acc st h
    · intro d hd hne hbs
      subst hd
      exact discoverAux_first_round_drains_min sched probeFn batchSize d acc st hne hbs
  · decide
  · decide

/-- C4 witness: the hypotheses of the general part hold concretely for the
seeded state with batch size 5 and one round of depth budget. -/
theorem c4_discover_batch_rounds_witness :
    seeded12.relayQueue ≠ [] ∧ 0 < 5 ∧
      (discoverAux id probeNoDiscovery 5 1 [] seeded12).2.2.head?
        = some (seeded12.relayQueue.take (min 5 seeded12.relayQueue.length)) :=
  ⟨by decide, by decide,
    (c4_discover_batch_rounds.1 id probeNoDiscovery 5 1 [] seeded12).2.2
      0 rfl (by decide) (by decide)⟩

/-! ## C5: determinism of the extraction-and-enqueue step -/

theorem contains_iff_mem (l : List String) (u : String) :
    l.contains u = true ↔ u ∈ l := by
  simp

theorem addNewRelays_visited_mem (us : List String) :
    ∀ (st : CrawlerState) (u : String),
      u ∈ (addNewRelays st us).visitedRelays ↔ u ∈ st.visitedRelays ∨ u ∈ us := by
  induction us with
  | nil => intro st u; simp [addNewRelays]
  | cons v rest ih =>
    intro st u
    show u ∈ (addNewRelays (enqueueIfNew st v) rest).visitedRelays ↔ _
    rw [ih]
    unfold enqueueIfNew
    by_cases hc : st.visitedRelays.contains v
    · rw [if_pos hc]
      have hv : v ∈ st.visitedRelays := (contains_iff_mem _ _).mp hc
      constructor
      · rintro (h | h)
        · exact Or.inl h
        · exact Or.inr (List.mem_cons_of_mem v h)
      · rintro (h | h)
        · exact Or.inl h
        · rcases List.mem_cons.mp h with h | h
          · exact Or.inl (h ▸ hv)
          · exact Or.inr h
    · rw [if_neg hc]
      simp only [List.mem_append, List.mem_singleton, List.mem_cons]
      tauto

/-- The segment `addNewRelays` appends to the queue: the not-yet-visited
input relays, first occurrences only, in input order. -/
def newSeg (visited : List String) : List String → List String
  | [] => []
  | u :: rest =>
    if visited.contains u then newSeg visited rest
    else u :: newSeg (visited ++ [u]) rest

theorem newSeg_cons (visited : List String) (v : String) (rest : List String) :
    newSeg visited (v :: rest)
      = if visited.contains v then newSeg visited rest
        else v :: newSeg (visited ++ [v]) rest := rfl

theorem addNewRelays_queue_eq (us : List String) :
    ∀ st : CrawlerState,
      (addNewRelays st us).relayQueue = st.relayQueue ++ newSeg st.visitedRelays us := by
  induction us with
  | nil => intro st; simp [addNewRelays, newSeg]
  | cons v rest ih =>
    intro st
    show (addNewRelays (enqueueIfNew st v) rest).relayQueue = _
    rw [ih, newSeg_cons]
    unfold enqueueIfNew
    by_cases hc : st.visitedRelays.contains v
    · rw [if_pos hc, if_pos hc]
    · rw [if_neg hc, if_neg hc]
      simp [List.append_assoc]

theorem newSeg_mem (us : List String) :
    ∀ (visited : List String) (u : String),
      u ∈ newSeg visited us ↔ u ∈ us ∧ u ∉ visited := by
  induction us with
  | nil => intro visited u; simp [newSeg]
  | cons v rest ih =>
    intro visited u
    rw [newSeg]
    by_cases hc : visited.contains v
    · rw [if_pos hc]
      have hv : v ∈ visited := (contains_iff_mem _ _).mp hc
      rw [ih]
      constructor
      · rintro ⟨h1, h2⟩
        exact ⟨List.mem_cons_of_mem v h1, h2⟩
      · rintro ⟨h1, h2⟩
        rcases List.mem_cons.mp h1 with h | h
        · exact absurd (h ▸ hv) h2
        · exact ⟨h, h2⟩
    · rw [if_neg hc]
      have hv : v ∉ visited := by
        intro hmem
        exact hc (List.elem_eq_true_of_mem hmem)
      rw [List.mem_cons, ih]
      simp only [List.mem_append, List.mem_singleton, List.mem_cons]
      constructor
      · rintro (h | ⟨h1, h2⟩)
        · exact ⟨Or.inl h, h ▸ hv⟩
        · exact ⟨Or.inr h1, fun hmem => h2 (Or.inl hmem)⟩
      · rintro ⟨h1, h2⟩
        rcases h1 with h | h
        · exact Or.inl h
        · by_cases huv : u = v
          · exact Or.inl huv
          · exact Or.inr ⟨h, fun hmem => (by tauto : False)⟩

theorem newSeg_nodup (us : List String) :
    ∀ visited : List String, (newSeg visited us).Nodup := by
  induction us with
  | nil => intro visited; simp [newSeg]
  | cons v rest ih =>
    intro visited
    rw [newSeg]
    by_cases hc : visited.contains v
    · rw [if_pos hc]; exact ih visited
    · rw [if_neg hc]
      rw [List.nodup_cons]
      refine ⟨?_, ih _⟩
      intro hmem
      have := (newSeg_mem rest _ v).mp hmem
      exact this.2 (List.mem_append.mpr (Or.inr (List.mem_singleton.mpr rfl)))

theorem newSeg_perm {us1 us2 vis1 vis2 : List String}
    (hus : us1.Perm us2) (hvis : ∀ u, u ∈ vis1 ↔ u ∈ vis2) :
    (newSeg vis1 us1).Perm (newSeg vis2 us2) := by
  rw [List.perm_ext_iff_of_nodup (newSeg_nodup us1 vis1) (newSeg_nodup us2 vis2)]
  intro u
  rw [newSeg_mem, newSeg_mem, hus.mem_iff, hvis u]

theorem processRoundResults_cons (sched : List String → List String)
    (r : String × ProbeOut) (rest : List (String × ProbeOut))
    (acc : List String) (st : CrawlerState) :
    processRoundResults sched (r :: rest) acc st
      = if r.2.IsAlive then
          processRoundResults sched rest (acc ++ [r.1])
            (addNewRelays st (extractRelaysFromEvents sched r.2.Events))
        else processRoundResults sched rest acc st := by
  by_cases ha : r.2.IsAlive
  · rw [if_pos ha]
    unfold processRoundResults
    rw [List.foldl_cons, if_pos ha]
  · rw [if_neg ha]
    unfold processRoundResults
    rw [List.foldl_cons, if_neg ha]

theorem processRoundResults_schedule_independent_up_to_perm
    {sched1 sched2 : List String → List String}
    (h1 : ValidSched sched1) (h2 : ValidSched sched2)
    (results : List (String × ProbeOut)) :
    ∀ (acc : List String) (st1 st2 : CrawlerState),
      st1.relayQueue.Perm st2.relayQueue →
      (∀ u, u ∈ st1.visitedRelays ↔ u ∈ st2.visitedRelays) →
      (processRoundResults sched1 results acc st1).1
          = (processRoundResults sched2 results acc st2).1
      ∧ (processRoundResults sched1 results acc st1).2.relayQueue.Perm
          (processRoundResults sched2 results acc st2).2.relayQueue
      ∧ (∀ u, u ∈ (processRoundResults sched1 results acc st1).2.visitedRelays
          ↔ u ∈ (processRoundResults sched2 results acc st2).2.visitedRelays) := by
  induction results with
  | nil => intro acc st1 st2 hq hv; exact ⟨rfl, hq, hv⟩
  | cons r rest ih =>
    intro acc st1 st2 hq hv
    rw [processRoundResults_cons, processRoundResults_cons]
    by_cases ha : r.2.IsAlive
    · rw [if_pos ha, if_pos ha]
      have hkeys : (sched1 (relaySetKeys r.2.Events)).Perm (sched2 (relaySetKeys r.2.Events)) :=
        (h1 _).trans (h2 _).symm
      have hq' : (addNewRelays st1 (extractRelaysFromEvents sched1 r.2.Events)).relayQueue.Perm
          (addNewRelays st2 (extractRelaysFromEvents sched2 r.2.Events)).relayQueue := by
        rw [addNewRelays_queue_eq, addNewRelays_queue_eq]
        exact hq.append (newSeg_perm hkeys hv)
      have hv' : ∀ u, u ∈ (addNewRelays st1 (extractRelaysFromEvents sched1 r.2.Events)).visitedRelays
          ↔ u ∈ (addNewRelays st2 (extractRelaysFromEvents sched2 r.2.Events)).visitedRelays := by
        intro u
        rw [addNewRelays_visited_mem, addNewRelays_visited_mem, hv u]
        unfold extractRelaysFromEvents
        rw [hkeys.mem_iff]
      exact ih (acc ++ [r.1]) _ _ hq' hv'
    · rw [if_neg ha, if_neg ha]
      exact ih acc st1 st2 hq hv

/-- The sample batch result for the counterexample: one alive endpoint
whose events reference two distinct relays. -/
def c5Results : List (String × ProbeOut) :=
  [("wss://seed.example",
    { IsAlive := true,
      Events := [{ id := "", pubkey := "", kind := 3,
                   Tags := [["r", "wss://aaa.example"], ["r", "wss://bbb.example"]],
                   content := "", sig := "", createdAt := 0 }] })]

/-- C5 counterexample: the extraction-and-enqueue step is not
deterministic.  The identity and reversal schedules are both valid Go map
iteration orders, yet on the same batch results they append the discovered
endpoints to the frontier in different orders. -/
theorem c5_counterexample_append_order_differs :
    ValidSched (fun l => l)
    ∧ ValidSched (fun l => l.reverse)
    ∧ (processRoundResults (fun l => l) c5Results [] initialCrawlerState).2.relayQueue
      ≠ (processRoundResults (fun l => l.reverse) c5Results [] initialCrawlerState).2.relayQueue := by
  refine ⟨fun l => List.Perm.refl l, fun l => List.reverse_perm l, ?_⟩
  decide

/-- C5 (amended): the extraction-and-enqueue step iterates the batch
results in their original order, so for a fixed list of batch results two
executions produce the same functioning-relay list; but because the
extracted relays of each result are drawn from a Go map whose iteration
order is unspecified, the two frontiers agree only up to permutation (same
endpoints, not necessarily the same order), with identical visited sets. -/
theorem c5_extraction_deterministic_up_to_order
    (sched1 sched2 : List String → List String)
    (h1 : ValidSched sched1) (h2 : ValidSched sched2)
    (results : List (String × ProbeOut)) (acc : List String) (st : CrawlerState) :
    (processRoundResults sched1 results acc st).1
        = (processRoundResults sched2 results acc st).1
    ∧ (processRoundResults sched1 results acc st).2.relayQueue.Perm
        (processRoundResults sched2 results acc st).2.relayQueue
    ∧ (∀ u, u ∈ (processRoundResults sched1 results acc st).2.visitedRelays
        ↔ u ∈ (processRoundResults sched2 results acc st).2.visitedRelays) :=
  processRoundResults_schedule_independent_up_to_perm h1 h2 results acc st st
    (List.Perm.refl _) (fun _ => Iff.rfl)

/-- C5 witness: the amended statement instantiated at the counterexample's
batch results and the two concrete schedules. -/
theorem c5_extraction_deterministic_up_to_order_witness :
    (processRoundResults (fun l => l) c5Results [] initialCrawlerState).1
        = (processRoundResults (fun l => l.reverse) c5Results [] initialCrawlerState).1
    ∧ (processRoundResults (fun l => l) c5Results [] initialCrawlerState).2.relayQueue.Perm
        (processRoundResults (fun l => l.reverse) c5Results [] initialCrawlerState).2.relayQueue
    ∧ (∀ u, u ∈ (processRoundResults (fun l => l) c5Results [] initialCrawlerState).2.visitedRelays
        ↔ u ∈ (processRoundResults (fun l => l.reverse) c5Results [] initialCrawlerState).2.visitedRelays) :=
  c5_extraction_deterministic_up_to_order (fun l => l) (fun l => l.reverse)
    (fun l => List.Perm.refl l) (fun l => List.reverse_perm l)
    c5Results [] initialCrawlerState

/-! ## C2: probe liveness classification (`Crawler.testRelay`, part_000 lines 121-209)

`testRelay` talks to the network; its observable inputs are modelled as a
probe script: either the connect, the request marshalling or the request
write fails, or the read loop consumes a sequence of read outcomes.  Each
read outcome is the context timeout firing (checked before the read, lines
158-164), a read error, or a frame as classified by the decode sequence of
lines 172-199. -/

/-- A received frame after the decode steps of lines 172-199:
`malformed` — not a JSON array, fewer than two elements, or a non-string
first element (skipped); `event p` — an `"EVENT"` frame with at least
three elements whose payload decodes to `p` (`none` when the payload does
not decode); `eventShort` — an `"EVENT"` frame with only two elements;
`eose`, `notice`, and `unknown` for the remaining first elements. -/
inductive Frame where
  | malformed
  | event (payload : Option NostrEvent)
  | eventShort
  | eose
  | notice
  | unknown
deriving DecidableEq

/-- One iteration's outcome of the read loop. -/
inductive ReadStep where
  | timeoutFired
  | readErr
  | frame (f : Frame)
deriving DecidableEq

/-- The observable input of one probe. -/
inductive ProbeInput where
  | connectErr
  | marshalErr
  | writeErr
  | reads (steps : List ReadStep)

/-- `RelayTestResult` (part_000 lines 98-103); the error detail is
abstracted to a flag. -/
structure RelayTestResultM where
  URL : String
  IsAlive : Bool
  Events : List NostrEvent
  hasError : Bool
deriving DecidableEq

/-- The read loop of `testRelay` (part_000 lines 155-208), carrying the
`events` accumulator.  On timeout or read error the result keeps
`IsAlive = false` and its `Events` field is never assigned (`nil` in Go,
`[]` here); on EOSE the loop breaks with `IsAlive = true` and the
collected events.  The loop can only exit through one of those cases (a
blocking read never returns without an outcome), so an exhausted script
yields `none`. -/
def collectLoop (url : String) (events : List NostrEvent) :
    List ReadStep → Option RelayTestResultM
  | [] => none
  | .timeoutFired :: _ => some { URL := url, IsAlive := false, Events := [], hasError := true }
  | .readErr :: _ => some { URL := url, IsAlive := false, Events := [], hasError := true }
  | .frame f :: rest =>
    match f with
    | .malformed => collectLoop url events rest
    | .event (some e) => collectLoop url (events ++ [e]) rest
    | .event none => collectLoop url events rest
    | .eventShort => collectLoop url events rest
    | .eose => some { URL := url, IsAlive := true, Events := events, hasError := false }
    | .notice => collectLoop url events rest
    | .unknown => collectLoop url events rest

/-- `Crawler.testRelay` (part_000 lines 121-209). -/
def testRelay (url : String) : ProbeInput → Option RelayTestResultM
  | .connectErr => some { URL := url, IsAlive := false, Events := [], hasError := true }
  | .marshalErr => some { URL := url, IsAlive := false, Events := [], hasError := true }
  | .writeErr => some { URL := url, IsAlive := false, Events := [], hasError := true }
  | .reads steps => collectLoop url [] steps

/-- The claim's classification predicate: an EOSE frame arrives strictly
before any timeout or read error. -/
def eoseBeforeFailure : List ReadStep → Bool
  | [] => false
  | .timeoutFired :: _ => false
  | .readErr :: _ => false
  | .frame .eose :: _ => true
  | .frame _ :: rest => eoseBeforeFailure rest

theorem collectLoop_alive_iff (url : String) :
    ∀ (steps : List ReadStep) (events : List NostrEvent) (r : RelayTestResultM),
      collectLoop url events steps = some r →
      (r.IsAlive = true ↔ eoseBeforeFailure steps = true)
      ∧ (r.IsAlive = false → r.Events = []) := by
  intro steps
  induction steps with
  | nil => intro events r h; simp [collectLoop] at h
  | cons step rest ih =>
    intro events r h
    cases step with
    | timeoutFired =>
      rw [collectLoop] at h
      have := Option.some_inj.mp h
      subst this
      exact ⟨by simp [eoseBeforeFailure], fun _ => rfl⟩
    | readErr =>
      rw [collectLoop] at h
      have := Option.some_inj.mp h
      subst this
      exact ⟨by simp [eoseBeforeFailure], fun _ => rfl⟩
    | frame f =>
      cases f with
      | malformed => exact ih events r h
      | eventShort => exact ih events r h
      | notice => exact ih events r h
      | unknown => exact ih events r h
      | eose =>
        rw [collectLoop] at h
        have := Option.some_inj.mp h
        subst this
        exact ⟨by simp [eoseBeforeFailure], by intro hfalse; simp at hfalse⟩
      | event payload =>
        cases payload with
        | some e => exact ih (events ++ [e]) r h
        | none => exact ih events r h

/-- C2: a probe is classified alive iff an EOSE frame is read before the
probe timeout or any read error: EOSE yields `IsAlive = true` even with
zero collected messages, while a connect/marshal/write failure, a read
error or the timeout before any EOSE yields `IsAlive = false` and discards
any partially collected messages. -/
theorem c2_alive_iff_eose_before_failure (url : String) (inp : ProbeInput)
    (r : RelayTestResultM) (h : testRelay url inp = some r) :
    (r.IsAlive = true ↔ ∃ steps, inp = .reads steps ∧ eoseBeforeFailure steps = true)
    ∧ (r.IsAlive = false → r.Events = []) := by
  cases inp with
  | connectErr =>
    have := Option.some_inj.mp h
    subst this
    refine ⟨⟨fun hfalse => by simp at hfalse, ?_⟩, fun _ => rfl⟩
    rintro ⟨steps, hsteps, _⟩
    exact absurd hsteps (by intro hc; cases hc)
  | marshalErr =>
    have := Option.some_inj.mp h
    subst this
    refine ⟨⟨fun hfalse => by simp at hfalse, ?_⟩, fun _ => rfl⟩
    rintro ⟨steps, hsteps, _⟩
    exact absurd hsteps (by intro hc; cases hc)
  | writeErr =>
    have := Option.some_inj.mp h
    subst this
    refine ⟨⟨fun hfalse => by simp at hfalse, ?_⟩, fun _ => rfl⟩
    rintro ⟨steps, hsteps, _⟩
    exact absurd hsteps (by intro hc; cases hc)
  | reads steps =>
    have hc := collectLoop_alive_iff url steps [] r h
    refine ⟨⟨fun htrue => ⟨steps, rfl, hc.1.mp htrue⟩, ?_⟩, hc.2⟩
    rintro ⟨steps2, hsteps2, heose⟩
    have : steps2 = steps := by
      cases hsteps2
      rfl
    subst this
    exact hc.1.mpr heose

/-- C2 witness: a probe that reads a lone EOSE frame is alive with zero
collected messages, and a probe that reads one event then times out is
dead with its partial messages discarded. -/
theorem c2_alive_iff_eose_before_failure_witness :
    (({ URL := "wss://a.example", IsAlive := true, Events := [], hasError := false }
        : RelayTestResultM).IsAlive = true
      ↔ ∃ steps, ProbeInput.reads [ReadStep.frame .eose] = .reads steps
          ∧ eoseBeforeFailure steps = true)
    ∧ (({ URL := "wss://a.example", IsAlive := true, Events := [], hasError := false }
        : RelayTestResultM).IsAlive = false →
        ({ URL := "wss://a.example", IsAlive := true, Events := [], hasError := false }
        : RelayTestResultM).Events = []) :=
  c2_alive_iff_eose_before_failure "wss://a.example" (.reads [.frame .eose]) _ rfl

/-! ## C9: stats increments and the crawler lock

The synchronization actions the crawler performs are made observable as an
action trace: lock acquisitions/releases of `c.mu` and increments of the
`DiscoveryStats` counters, emitted in program order as the source performs
them. -/

/-- An observable synchronization or stats action. -/
inductive MuAct where
  | lock
  | unlock
  | rlock
  | runlock
  | incrTotalRelaysFound
  | incrFunctioningRelays
  | incrEventsProcessed
deriving DecidableEq

/-- The actions of the read loop of `testRelay` (part_000 lines 155-208):
`c.stats.EventsProcessed++` (line 192) is executed once per decoded event
frame; the function performs no lock operation anywhere. -/
def collectActs : List ReadStep → List MuAct
  | [] => []
  | .timeoutFired :: _ => []
  | .readErr :: _ => []
  | .frame f :: rest =>
    match f with
    | .event (some _) => .incrEventsProcessed :: collectActs rest
    | .eose => []
    | _ => collectActs rest

/-- The action trace of `Crawler.testRelay` (part_000 lines 121-209). -/
def testRelayActs : ProbeInput → List MuAct
  | .connectErr => []
  | .marshalErr => []
  | .writeErr => []
  | .reads steps => collectActs steps

/-- The actions of one round's result loop in `DiscoverRelays` (part_000
lines 64-75): `FunctioningRelays++` per alive result (line 67) and
`TotalRelaysFound += len(batch)` after the loop (line 74), with no lock
operation. -/
def discoverRoundActs (results : List (String × ProbeOut)) : List MuAct :=
  (results.filter (fun r => r.2.IsAlive)).map (fun _ => MuAct.incrFunctioningRelays)
    ++ [MuAct.incrTotalRelaysFound]

/-- Every stats increment in the trace happens while the exclusive lock is
held (write-lock depth positive at the increment). -/
def statsIncrsLockedFrom (depth : Nat) : List MuAct → Bool
  | [] => true
  | .lock :: rest => statsIncrsLockedFrom (depth + 1) rest
  | .unlock :: rest => statsIncrsLockedFrom (depth - 1) rest
  | .rlock :: rest => statsIncrsLockedFrom depth rest
  | .runlock :: rest => statsIncrsLockedFrom depth rest
  | .incrTotalRelaysFound :: rest => decide (0 < depth) && statsIncrsLockedFrom depth rest
  | .incrFunctioningRelays :: rest => decide (0 < depth) && statsIncrsLockedFrom depth rest
  | .incrEventsProcessed :: rest => decide (0 < depth) && statsIncrsLockedFrom depth rest

/-- Every stats increment in the trace is under the lock. -/
def statsIncrsLocked (acts : List MuAct) : Bool :=
  statsIncrsLockedFrom 0 acts

/-- One alive batch result, for evaluating the round loop's increments. -/
def c9Results : List (String × ProbeOut) :=
  [("wss://seed.example", { IsAlive := true, Events := [] })]

/-- C9 evaluation at the failing input: a probe that decodes one event
frame and then reads EOSE executes `EventsProcessed++` with no lock
acquired — the increment is not protected by the crawler's lock (and the
round loop's own increments run outside any lock as well). -/
theorem c9_stats_increment_without_lock :
    testRelayActs (.reads
        [.frame (.event (some { id := "", pubkey := "", kind := 3,
                                Tags := [], content := "", sig := "", createdAt := 0 })),
         .frame .eose])
      = [MuAct.incrEventsProcessed]
    ∧ statsIncrsLocked [MuAct.incrEventsProcessed] = false
    ∧ statsIncrsLocked (discoverRoundActs c9Results) = false := by
  refine ⟨rfl, rfl, rfl⟩

end NostrLocation
